import Mathlib

/-!
Verification of the mini-dev development HTTP server.

The development models the server's request handling, path resolution,
proxy rule selection, env-variable filtering, HTML client-runtime
injection, 404-page escaping, file-change broadcasting and shutdown
sequence as pure Lean functions, translated from `dist/dev-server.js`
and `dist/load-env.js`.  Strings are modelled as `List Char`
(`Str`), and the JavaScript string/path primitives used by the server
(`includes`, `replace`, `split`, `path.join`, `path.resolve`,
`path.relative`, `path.extname`) are given explicit definitions with
the same semantics.
-/

namespace MiniDev

/-- Strings are modelled as lists of characters. -/
abbrev Str := List Char

/-- Convert a Lean string literal to the `Str` model. -/
def str (s : String) : Str := s.data

example : str "ab" = ['a', 'b'] := rfl

/-- JS `String.prototype.includes` (substring test). -/
def containsSub : Str → Str → Bool
  | [], pat => pat.isPrefixOf []
  | c :: t, pat => pat.isPrefixOf (c :: t) || containsSub t pat

/-- Number of (possibly overlapping) occurrence positions of `pat` in `s`. -/
def countSub : Str → Str → Nat
  | [], pat => if pat.isPrefixOf ([] : Str) then 1 else 0
  | c :: t, pat => (if pat.isPrefixOf (c :: t) then 1 else 0) + countSub t pat

/-- Occurrence positions of `pat` in `x ++ y` that start inside `x`. -/
def countIn : Str → Str → Str → Nat
  | [], _, _ => 0
  | c :: t, y, pat => (if pat.isPrefixOf (c :: (t ++ y)) then 1 else 0) + countIn t y pat

/-- JS `String.prototype.replace` with a string pattern: replace the first
occurrence of `pat` in `s` by `rep` (the whole string is returned unchanged
when `pat` does not occur). -/
def replaceFirst : Str → Str → Str → Str
  | [], pat, rep => if pat.isPrefixOf ([] : Str) then rep else []
  | c :: t, pat, rep =>
    if pat.isPrefixOf (c :: t) then rep ++ (c :: t).drop pat.length
    else c :: replaceFirst t pat rep

/-- JS `String.prototype.replace` with a global single-character regex:
every occurrence of the character `c` is replaced by `rep`. -/
def replaceAllChar (c : Char) (rep : Str) (s : Str) : Str :=
  s.flatMap fun x => if x = c then rep else [x]

/-- Split a string at every occurrence of the character `c`
(JS `String.prototype.split` with a one-character separator). -/
def splitOnCharAux (c : Char) : Str → Str → List Str
  | [], acc => [acc.reverse]
  | x :: xs, acc =>
    if x = c then acc.reverse :: splitOnCharAux c xs []
    else splitOnCharAux c xs (x :: acc)

def splitOnChar (c : Char) (s : Str) : List Str := splitOnCharAux c s []

example : splitOnChar '/' (str "/a/b") = [str "", str "a", str "b"] := rfl


/-- `pat` cannot begin strictly inside a string and continue into `y`:
no proper nonempty suffix-remainder of `pat` is a prefix of `y`. -/
def NoStraddle (pat y : Str) : Prop :=
  ∀ k : Nat, 0 < k → k < pat.length → ¬ (pat.drop k <+: y)

end MiniDev

/-! ### Node `path` (POSIX) primitives used by the server -/

namespace MiniDev

/-- Normalization stack for `.`/`..` path segments.  `abs` records whether
the path is absolute (in which case excess `..` segments at the root are
dropped, as Node does); for relative paths leading `..` segments are kept. -/
def normStack (abs : Bool) : List Str → List Str → List Str
  | stack, [] => stack.reverse
  | stack, s :: rest =>
    if s = [] ∨ s = str "." then normStack abs stack rest
    else if s = str ".." then
      match stack with
      | [] => if abs then normStack abs [] rest else normStack abs [s] rest
      | t :: st =>
        if t = str ".." then normStack abs (s :: t :: st) rest
        else normStack abs st rest
    else normStack abs (s :: stack) rest

/-- Normalized segment list of a path string. -/
def normalizeSegs (abs : Bool) (p : Str) : List Str :=
  normStack abs [] (splitOnChar '/' p)

def isAbs (p : Str) : Bool := p.head? = some '/'

def joinSegs (l : List Str) : Str := List.intercalate (str "/") l

/-- Node `path.normalize` (POSIX).  Collapses `.`/`..`/repeated separators.
(The corner case where a trailing slash survives full collapse is not
modelled; no caller of the model depends on trailing slashes.) -/
def normalizePath (p : Str) : Str :=
  if p = [] then str "." else
  let core := joinSegs (normalizeSegs (isAbs p) p)
  if isAbs p then '/' :: core
  else if core = [] then str "." else core

/-- Node `path.join(a, b)` (POSIX): concatenate the non-empty parts with a
separator and normalize. -/
def joinPaths (a b : Str) : Str :=
  if a = [] ∧ b = [] then str "."
  else if a = [] then normalizePath b
  else if b = [] then normalizePath a
  else normalizePath (a ++ '/' :: b)

/-- Node `path.resolve(a, b)` where `a` is an absolute path: if `b` is
absolute the result is `b` normalized, otherwise `a/b` normalized.
`resolve` never returns a trailing separator. -/
def resolveTwo (a b : Str) : Str :=
  let p := if isAbs b then b else a ++ '/' :: b
  '/' :: joinSegs (normalizeSegs true p)

/-- Node `path.relative(f, t)` for absolute `f` and `t`: strip the common
segment prefix, go up with `..` for each remaining segment of `f`, then
descend into the remainder of `t`. -/
def commonLen : List Str → List Str → Nat
  | a :: as, b :: bs => if a = b then 1 + commonLen as bs else 0
  | _, _ => 0

def relativePath (f t : Str) : Str :=
  let fs := normalizeSegs true f
  let ts := normalizeSegs true t
  let c := commonLen fs ts
  joinSegs (List.replicate (fs.length - c) (str "..") ++ ts.drop c)

example : relativePath (str "/a/public") (str "/a/secret.txt") = str "../secret.txt" := rfl
example : relativePath (str "/a/public") (str "/a/public/img/x.png") = str "img/x.png" := rfl
example : joinPaths (str "/home/user/app") (str "../secret.txt") = str "/home/user/secret.txt" := rfl
example : resolveTwo (str "/r/public") (str "../x") = str "/r/x" := rfl

/-- Index of the last `.` in a segment, if any. -/
def lastDotIdx (b : Str) : Option Nat :=
  ((List.range b.length).filter (fun i => b.getD i ' ' = '.')).getLast?

/-- Node `path.extname` (POSIX): the extension of the basename, empty when
the basename has no dot or starts with its only leading dot. -/
def extnameL (p : Str) : Str :=
  let q := (p.reverse.dropWhile (· = '/')).reverse
  let b := ((splitOnChar '/' q).getLast?).getD []
  match lastDotIdx b with
  | none => []
  | some 0 => []
  | some j => if b = str ".." then [] else b.drop j

example : extnameL (str "/a/b.txt") = str ".txt" := rfl
example : extnameL (str "/a/b") = str "" := rfl
example : extnameL (str "/a/.env") = str "" := rfl
example : extnameL (str "/..") = str "" := rfl
example : extnameL (str "/../secret.txt") = str ".txt" := rfl
example : extnameL (str "/x/app.v2.ts") = str ".ts" := rfl

/-- JS `String.prototype.trim` (over the whitespace the env parser meets). -/
def isWsChar (c : Char) : Bool := c = ' ' ∨ c = '\t' ∨ c = '\r' ∨ c = '\n'

def trimStr (s : Str) : Str :=
  ((s.dropWhile isWsChar).reverse.dropWhile isWsChar).reverse

/-- Decimal rendering of a natural number (for cache-bust tokens). -/
def natStr (n : Nat) : Str := (Nat.repr n).data

end MiniDev

/-! ### Server data model -/

namespace MiniDev

/-- `escapeHtml` from `dev-server.js`: four sequential global replacements
(`&` first, then `<`, `>`, `"`). -/
def escapeHtml (s : Str) : Str :=
  replaceAllChar '"' (str "&quot;")
    (replaceAllChar '>' (str "&gt;")
      (replaceAllChar '<' (str "&lt;")
        (replaceAllChar '&' (str "&amp;") s)))

/-- Specification-side character encoder: each of `&ltgt"` becomes its
entity, every other character is kept. -/
def encodeChar (x : Char) : Str :=
  if x = '&' then str "&amp;"
  else if x = '<' then str "&lt;"
  else if x = '>' then str "&gt;"
  else if x = '"' then str "&quot;"
  else [x]

/-- Specification-side escaping: encode every character independently. -/
def escapeHtmlSpec (s : Str) : Str := s.flatMap encodeChar

/-- The `MIME_TYPES` table of `dev-server.js`. -/
def MIME_TYPES : List (Str × Str) :=
  [(str ".html", str "text/html"), (str ".js", str "application/javascript"),
   (str ".mjs", str "application/javascript"), (str ".ts", str "application/javascript"),
   (str ".tsx", str "application/javascript"), (str ".json", str "application/json"),
   (str ".css", str "text/css"), (str ".ico", str "image/x-icon"),
   (str ".png", str "image/png"), (str ".jpg", str "image/jpeg"),
   (str ".jpeg", str "image/jpeg"), (str ".gif", str "image/gif"),
   (str ".svg", str "image/svg+xml"), (str ".woff", str "font/woff"),
   (str ".woff2", str "font/woff2"), (str ".txt", str "text/plain"),
   (str ".xml", str "application/xml"), (str ".webmanifest", str "application/manifest+json")]

def mimeLookup (ext dflt : Str) : Str :=
  ((MIME_TYPES.find? (fun q => q.1 == ext)).map (fun q => q.2)).getD dflt

/-- An HTTP response as produced by the server (status, content type, body,
and the `Location` header for redirects). -/
structure Response where
  status : Nat
  contentType : Str
  body : Str
  location : Option Str := none
  deriving DecidableEq, Repr

def redirectResp (loc : Str) : Response :=
  { status := 302, contentType := [], body := [], location := some loc }

/-- The filesystem and dot-env environment visible to one request.
`visitable` is the path list produced by `listVisitablePaths` (root entries
plus the recursive `public/` walk, sorted); the directory walk itself is
I/O and is abstracted into this field. -/
structure Fs where
  fsExists : Str → Bool
  fsIsFile : Str → Bool
  fsRead : Str → Except Str Str
  envFile : Option Str := none
  envLocalFile : Option Str := none
  visitable : List Str := []

/-- One `<li>` entry of the 404 listing (from `serve404`). -/
def listItemHtml (p : Str) : Str :=
  str "<li><a href=\"" ++ escapeHtml p ++ str "\">" ++ escapeHtml p ++ str "</a></li>"

def page404Pre : Str := str "<!DOCTYPE html>\n<html lang=\"en\">\n<head>\n  <meta charset=\"UTF-8\">\n  <meta name=\"viewport\" content=\"width=device-width, initial-scale=1.0\">\n  <title>404 - Not Found</title>\n  <style>\n    * \x7b box-sizing: border-box; \x7d\n    body \x7b font-family: system-ui, sans-serif; margin: 0; padding: 2rem; max-width: 640px; line-height: 1.6; color: #333; \x7d\n    h1 \x7b font-size: 1.25rem; color: #c00; \x7d\n    code \x7b background: #f0f0f0; padding: 0.2em 0.4em; border-radius: 4px; \x7d\n    ul \x7b margin: 1rem 0; padding-left: 1.5rem; \x7d\n    a \x7b color: #0066cc; \x7d\n    a:hover \x7b text-decoration: underline; \x7d\n  </style>\n</head>\n<body>\n  <h1>404 - Not Found</h1>\n  <p>The path <code>"

def page404Mid : Str := str "</code> does not exist.</p>\n  <p>Available paths you can visit:</p>\n  <ul>\n"

def page404Post : Str := str "\n  </ul>\n</body>\n</html>"

/-- The 404 listing page of `serve404`. -/
def serve404Html (displayPath : Str) (paths : List Str) : Str :=
  page404Pre ++ escapeHtml displayPath ++ page404Mid ++
    List.intercalate (str "\n") (paths.map listItemHtml) ++ page404Post

def serve404 (fs : Fs) (pathname : Str) : Response :=
  { status := 404, contentType := str "text/html",
    body := serve404Html pathname fs.visitable }

/-! ### Env loading (`load-env.js`) -/

/-- Non-overlapping left-to-right global string replacement
(JS `replace` with a global regex over a literal pattern). -/
def replaceAll (pat rep : Str) : Str → Str
  | [] => []
  | c :: t =>
    if h : pat ≠ [] ∧ pat.isPrefixOf (c :: t) then
      rep ++ replaceAll pat rep (t.drop (pat.length - 1))
    else c :: replaceAll pat rep t
termination_by s => s.length
decreasing_by
  · simp only [List.length_cons, List.length_drop]
    omega
  · simp

/-- Quote stripping of `parseEnvString`: double quotes also unescape
`\n` and `\"`, single quotes are stripped verbatim. -/
def stripQuotes (v : Str) : Str :=
  if v.head? = some '"' ∧ v.getLast? = some '"' then
    replaceAll (str "\\\"") (str "\"") (replaceAll (str "\\n") (str "\n") ((v.drop 1).dropLast))
  else if v.head? = some '\'' ∧ v.getLast? = some '\'' then
    (v.drop 1).dropLast
  else v

/-- JS object assignment `out[key] = value` preserving key insertion order. -/
def upsert (m : List (Str × Str)) (k v : Str) : List (Str × Str) :=
  if m.any (fun q => q.1 == k) then m.map (fun q => if q.1 == k then (k, v) else q)
  else m ++ [(k, v)]

/-- `content.split(/\r?\n/)`. -/
def splitLines (content : Str) : List Str :=
  (splitOnChar '\n' content).map (fun l => if l.getLast? = some '\r' then l.dropLast else l)

def parseEnvLine (m : List (Str × Str)) (line : Str) : List (Str × Str) :=
  let trimmed := trimStr line
  if trimmed = [] ∨ trimmed.head? = some '#' then m
  else
    match trimmed.findIdx? (· = '=') with
    | none => m
    | some eqIdx =>
      if eqIdx = 0 then m
      else
        let key := trimStr (trimmed.take eqIdx)
        let value := stripQuotes (trimStr (trimmed.drop (eqIdx + 1)))
        upsert m key value

/-- `parseEnvString` from `load-env.js`. -/
def parseEnvString (content : Str) : List (Str × Str) :=
  (splitLines content).foldl parseEnvLine []

def stripBOM (s : Str) : Str :=
  match s with
  | [] => []
  | c :: t => if c = Char.ofNat 0xFEFF then t else c :: t

/-- `loadPublicEnv` from `load-env.js`: merge `.env` then `.env.local`
(absent or unreadable files are skipped), then filter keys by the prefix
string; an empty prefix string returns the merged map unfiltered. -/
def loadPublicEnv (envFile envLocalFile : Option Str) (pfx : Str) : List (Str × Str) :=
  let merged := [envFile, envLocalFile].foldl
    (fun m f =>
      match f with
      | none => m
      | some content =>
        (parseEnvString (stripBOM content)).foldl (fun m2 q => upsert m2 q.1 q.2) m)
    []
  if pfx = [] then merged
  else merged.filter (fun q => pfx.isPrefixOf q.1)

/-- One `serveEnv` request: while the cached `publicEnv` is empty the dot-env
files are (re)loaded, afterwards the cache is returned unchanged.  (`serveEnv`
is only dispatched when the env endpoint is enabled, i.e. `envPrefix` is not
null; `pfx` is that configured prefix.) -/
def serveEnvLoad (fs : Fs) (pfx : Str) (st : List (Str × Str)) : List (Str × Str) :=
  if st.isEmpty then loadPublicEnv fs.envFile fs.envLocalFile pfx else st

def jsonEscape (s : Str) : Str :=
  s.flatMap fun c =>
    if c = '"' then str "\\\"" else if c = '\\' then str "\\\\"
    else if c = '\n' then str "\\n" else if c = '\r' then str "\\r"
    else if c = '\t' then str "\\t" else [c]

def jsonOfPairs (m : List (Str × Str)) : Str :=
  Char.ofNat 123 ::
    (List.intercalate (str ",")
      (m.map fun q => '"' :: (jsonEscape q.1 ++ str "\":\"" ++ jsonEscape q.2 ++ str "\"")))
    ++ [Char.ofNat 125]

def serveEnvBody (st : List (Str × Str)) : Str :=
  str "window.__MINI_DEV_ENV__=" ++ jsonOfPairs st ++ str ";"

def serveEnvResp (fs : Fs) (pfx : Str) (st : List (Str × Str)) : Response :=
  { status := 200, contentType := str "application/javascript",
    body := serveEnvBody (serveEnvLoad fs pfx st) }

end MiniDev

/-! ### Proxy rules (`normalizeProxy` / `tryProxy`) -/

namespace MiniDev

structure ProxyRule where
  path : Str
  target : Str
  deriving DecidableEq, Repr

/-- Normalize one configured entry: ensure a leading `/` on the path and
strip one trailing `/` from the target. -/
def normalizeRule (e : Str × Str) : ProxyRule :=
  { path := if e.1.head? = some '/' then e.1 else '/' :: e.1,
    target := if e.2.getLast? = some '/' then e.2.dropLast else e.2 }

/-- Stable insertion keeping path lengths descending (a rule moves ahead of
an existing one only when strictly longer, as the stable JS sort does). -/
def insertRule (r : ProxyRule) : List ProxyRule → List ProxyRule
  | [] => [r]
  | x :: xs =>
    if x.path.length < r.path.length then r :: x :: xs
    else x :: insertRule r xs

def sortRules (l : List ProxyRule) : List ProxyRule :=
  l.foldl (fun acc r => insertRule r acc) []

/-- `normalizeProxy`: normalize every entry, then sort by descending
path-prefix length (stable). -/
def normalizeProxy (proxy : List (Str × Str)) : List ProxyRule :=
  sortRules (proxy.map normalizeRule)

/-- The match test of `tryProxy`: path equals the rule's prefix or starts
with the prefix followed by `/`. -/
def ruleMatches (p : Str) (r : ProxyRule) : Bool :=
  p == r.path || (r.path ++ str "/").isPrefixOf p

def findProxyRule (rules : List ProxyRule) (p : Str) : Option ProxyRule :=
  rules.find? (ruleMatches p)

def proxyUrl (r : ProxyRule) (p search : Str) : Str :=
  r.target ++ p ++ (if search = [] then [] else '?' :: search)

/-- `tryProxy`: forward to the first matching rule of the sorted list,
relaying the upstream response; an unreachable upstream becomes a 502. -/
def tryProxy (fetchF : Str → Except Str Response) (rules : List ProxyRule)
    (p search : Str) : Option Response :=
  match findProxyRule rules p with
  | none => none
  | some r =>
    match fetchF (proxyUrl r p search) with
    | .ok resp => some resp
    | .error _ =>
      some { status := 502, contentType := str "text/plain", body := str "Bad Gateway" }

/-! ### Public-asset serving (`servePublic`) -/

/-- `servePublic`: resolve the request path inside `root/public`, falling
through (`none`) when the public directory is missing, the resolved path
escapes it, or no regular file is there.  A failing file read propagates
as an error (the call site does not catch it). -/
def servePublicM (fs : Fs) (root pathname : Str) : Except Str (Option Response) :=
  let publicDir := joinPaths root (str "public")
  if ¬ fs.fsExists publicDir then .ok none
  else
    let subPath := pathname.drop 1
    let filePath := resolveTwo publicDir subPath
    if (str "..").isPrefixOf (relativePath publicDir filePath) then .ok none
    else if ¬ fs.fsExists filePath then .ok none
    else if ¬ fs.fsIsFile filePath then .ok none
    else
      match fs.fsRead filePath with
      | .error e => .error e
      | .ok data =>
        .ok (some { status := 200,
                    contentType := mimeLookup (extnameL filePath) (str "application/octet-stream"),
                    body := data })

/-! ### HTML serving (`serveHtml`, no base path configured) -/

/-- The injected client-runtime tag (`hmrScript` with `this.base = ''`). -/
def hmrScriptTag : Str := str "<script type=\"module\" src=\"@hmr-client\"></script>"

/-- The injection step of `serveHtml`: when no client-runtime reference is
present, insert the tag before `</head>`, or before `</html>` when no
`</head>` exists. -/
def injectHmr (html : Str) : Str :=
  if ¬ containsSub html (str "@hmr-client") ∧ ¬ containsSub html (str "</head>") then
    replaceFirst html (str "</html>") (hmrScriptTag ++ str "</html>")
  else if ¬ containsSub html (str "@hmr-client") then
    replaceFirst html (str "</head>") (hmrScriptTag ++ str "</head>")
  else html

def serveHtml (fs : Fs) (root url : Str) : Except Str Response :=
  let filePath := joinPaths root (url.drop 1)
  if ¬ fs.fsExists filePath then .ok (serve404 fs url)
  else
    match fs.fsRead filePath with
    | .error e => .error e
    | .ok html =>
      .ok { status := 200, contentType := mimeLookup (str ".html") [],
            body := injectHmr html }

end MiniDev

/-! ### Import path resolution (`resolveImportPath` / `addExtension`) -/

namespace MiniDev

/-- `addExtension`: probe the filesystem under the served root for `.tsx`,
`.ts`, `.js` in that order, defaulting to `.ts`. -/
def addExtension (fs : Fs) (root p : Str) : Str :=
  if fs.fsExists (joinPaths root (p.drop 1 ++ str ".tsx")) then p ++ str ".tsx"
  else if fs.fsExists (joinPaths root (p.drop 1 ++ str ".ts")) then p ++ str ".ts"
  else if fs.fsExists (joinPaths root (p.drop 1 ++ str ".js")) then p ++ str ".js"
  else p ++ str ".ts"

/-- Specification-side extension policy: the first of `.tsx`, `.ts`, `.js`
whose file exists under the served root, defaulting to `.ts` when none
exists (stated with an explicit ordered search, to compare with
`addExtension`). -/
def extensionPolicySpec (fs : Fs) (root p : Str) : Str :=
  (([str ".tsx", str ".ts", str ".js"].find?
      (fun e => fs.fsExists (joinPaths root (p.drop 1 ++ e)))).getD (str ".ts"))

/-- The raw relative resolution of `resolveImportPath`:
`join(base, path).replace(/\\/g, '/')` with `base` the importer directory
(empty when the importer sits at the root). -/
def resolveRelRaw (p importerDir : Str) : Str :=
  replaceAllChar '\\' (str "/") (joinPaths (if importerDir = str "/" then [] else importerDir) p)

/-- `resolveImportPath`: a server-rooted specifier is kept, a relative one
is joined with the importing module's directory; a missing leading `/` is
restored and a missing extension is inferred with `addExtension`. -/
def resolveImportPath (fs : Fs) (root p importerDir : Str) : Str :=
  if p.head? = some '/' then
    if extnameL p = [] then addExtension fs root p else p
  else
    if (resolveRelRaw p importerDir).head? = some '/' then
      if extnameL (resolveRelRaw p importerDir) = [] then
        addExtension fs root (resolveRelRaw p importerDir)
      else resolveRelRaw p importerDir
    else
      if extnameL ('/' :: resolveRelRaw p importerDir) = [] then
        addExtension fs root ('/' :: resolveRelRaw p importerDir)
      else '/' :: resolveRelRaw p importerDir

/-! ### Import rewriting (`transformImports`) -/

def isJsWs (c : Char) : Bool :=
  c = ' ' ∨ c = '\t' ∨ c = '\n' ∨ c = '\r' ∨ c = Char.ofNat 12 ∨ c = Char.ofNat 11

def isQuote (c : Char) : Bool := c = '\'' ∨ c = '"'

def matchLit (lit s : Str) : Option Str :=
  if lit.isPrefixOf s then some (s.drop lit.length) else none

def matchWsPlus (s : Str) : Option Str :=
  match s with
  | c :: t => if isJsWs c then some (t.dropWhile isJsWs) else none
  | [] => none

/-- Match `[^'"]+['"]` and return the captured specifier plus the rest. -/
def matchSpecTail (s : Str) : Option (Str × Str) :=
  let cap := s.takeWhile (fun c => ¬ isQuote c)
  if cap = [] then none
  else
    match s.drop cap.length with
    | c :: rest => if isQuote c then some (cap, rest) else none
    | [] => none

/-- Match the regex `from\s+['"]([^'"]+)['"]` at the head of `s`. -/
def matchFromPat (s : Str) : Option (Str × Str) :=
  (matchLit (str "from") s).bind fun s1 =>
  (matchWsPlus s1).bind fun s2 =>
  match s2 with
  | q :: s3 => if isQuote q then matchSpecTail s3 else none
  | [] => none

/-- Match the regex `import\s+\(['"]([^'"]+)['"]\)` at the head of `s`. -/
def matchDynPat (s : Str) : Option (Str × Str) :=
  (matchLit (str "import") s).bind fun s1 =>
  (matchWsPlus s1).bind fun s2 =>
  match s2 with
  | '(' :: q :: s4 =>
    if isQuote q then
      (matchSpecTail s4).bind fun pr =>
        match pr.2 with
        | ')' :: rest => some (pr.1, rest)
        | _ => none
    else none
  | _ => none

/-- Match the regex `import\s+['"]([^'"]+)['"]` at the head of `s`. -/
def matchImpPat (s : Str) : Option (Str × Str) :=
  (matchLit (str "import") s).bind fun s1 =>
  (matchWsPlus s1).bind fun s2 =>
  match s2 with
  | q :: s3 => if isQuote q then matchSpecTail s3 else none
  | [] => none

/-- One left-to-right global regex-replace pass: at each position try the
matcher; on a match emit the replacement and continue after it. -/
def scanRewrite (m : Str → Option (Str × Str)) (emit : Str → Str) : Nat → Str → Str
  | 0, s => s
  | _ + 1, [] => []
  | fuel + 1, c :: t =>
    match m (c :: t) with
    | some (spec, rest) => emit spec ++ scanRewrite m emit fuel rest
    | none => c :: scanRewrite m emit fuel t

def runScan (m : Str → Option (Str × Str)) (emit : Str → Str) (s : Str) : Str :=
  scanRewrite m emit s.length s

/-- The HMR preamble prepended by `transformImports` (already trimmed). -/
def hmrInjectPreamble : Str :=
  str "if (typeof window !== 'undefined' && window.__MINI_DEV_HOT__) \x7b\n  import.meta.hot = window.__MINI_DEV_HOT__(import.meta.url);\n\x7d"

/-- The bare-specifier resolver abstracts `resolveBareSpecifier`
(it walks `node_modules` and reads `package.json` entry points); it returns
`packageName ++ "/" ++ entrySubpath` when resolution succeeds. -/
def transformImports (fs : Fs) (root basePfxS : Str)
    (bareResolver : Str → Option Str)
    (code importerDir : Str) (now : Nat) : Str :=
  let withBase := fun (p : Str) => if basePfxS ≠ [] then basePfxS ++ p else p
  let resolveImport := fun (p : Str) =>
    if p.head? = some '.' ∨ p.head? = some '/' then
      withBase (resolveImportPath fs root p importerDir) ++ str "?t=" ++ natStr now
    else
      match bareResolver p with
      | some entry => withBase (str "/@node_modules/" ++ entry) ++ str "?t=" ++ natStr now
      | none => p
  let code1 := runScan matchFromPat
    (fun spec => str "from '" ++ resolveImport spec ++ str "'") code
  let code2 := runScan matchDynPat
    (fun spec => str "import('" ++ resolveImport spec ++ str "')") code1
  let code3 := runScan matchImpPat
    (fun spec => str "import '" ++ resolveImport spec ++ str "'") code2
  hmrInjectPreamble ++ str "\n" ++ code3

/-! ### Remaining per-type handlers and the request router -/

/-- Node `path.dirname` (POSIX). -/
def dirnameOf (p : Str) : Str :=
  let q := (p.reverse.dropWhile (· = '/')).reverse
  match (splitOnChar '/' q).dropLast with
  | [] => str "."
  | segs => if segs = [str ""] then str "/" else joinSegs segs

/-- Server configuration and external collaborators (transpiler, upstream
fetch for the proxy, node-module serving, bare-import resolution).  The
model fixes the base path to the default (no base configured). -/
structure Config where
  root : Str
  envPfx : Option Str := none
  proxy : List (Str × Str) := []
  publicEnv : List (Str × Str) := []
  hmrClientCode : Str := []
  transpile : Bool → Str → Except Str Str := fun _ c => .ok c
  fetchF : Str → Except Str Response := fun _ => .error (str "fetch failed")
  nodeModuleH : Str → Option Response := fun _ => none
  bareResolver : Str → Option Str := fun _ => none

/-- `serveTypeScript` (the module-registry write does not influence the
response and is modelled separately with `handleFileChange`). -/
def serveTypeScript (cfg : Config) (fs : Fs) (url : Str) (now : Nat) :
    Except Str Response :=
  let cleanPath := (splitOnChar '?' url).headD []
  let filePath := joinPaths cfg.root (cleanPath.drop 1)
  if ¬ fs.fsExists filePath then .ok (serve404 fs cleanPath)
  else
    match fs.fsRead filePath with
    | .error e => .error e
    | .ok code =>
      match cfg.transpile (extnameL filePath = str ".tsx") code with
      | .error e => .error e
      | .ok out =>
        let importerDir := '/' :: (dirnameOf (cleanPath.drop 1))
        let transformed :=
          transformImports fs cfg.root [] cfg.bareResolver out importerDir now
        .ok { status := 200, contentType := mimeLookup (str ".ts") [],
              body := transformed }

def serveCss (fs : Fs) (root url : Str) : Except Str Response :=
  let filePath := joinPaths root (url.drop 1)
  if ¬ fs.fsExists filePath then .ok (serve404 fs url)
  else
    match fs.fsRead filePath with
    | .error e => .error e
    | .ok css =>
      .ok { status := 200, contentType := mimeLookup (str ".css") [], body := css }

def serveStaticFile (fs : Fs) (root url : Str) : Except Str Response :=
  let filePath := joinPaths root (url.drop 1)
  if ¬ fs.fsExists filePath then .ok (serve404 fs url)
  else
    match fs.fsRead filePath with
    | .error e => .error e
    | .ok data =>
      .ok { status := 200,
            contentType := mimeLookup (extnameL filePath) (str "application/octet-stream"),
            body := data }

/-- The filesystem path read by `serveStatic` (and the HTML/CSS/TS handlers)
for a request path: `join(root, url.slice(1))` — computed with no check that
the result stays under `root`. -/
def staticFilePath (root url : Str) : Str := joinPaths root (url.drop 1)

/-- Is `p` inside `root` (equal to it or below it), comparing normalized
absolute segment lists? -/
def isUnderRoot (root p : Str) : Bool :=
  (normalizeSegs true root).isPrefixOf (normalizeSegs true p)

/-- The extension-dispatch block of `handleRequest` (step 7): HTML,
TypeScript, CSS, or generic static serving by extension. -/
def dispatchByExt (cfg : Config) (fs : Fs) (p : Str) (now : Nat) :
    Except Str Response :=
  let ext := extnameL p
  if ext = str ".html" then serveHtml fs cfg.root p
  else if ext = str ".ts" ∨ ext = str ".tsx" then serveTypeScript cfg fs p now
  else if ext = str ".css" then serveCss fs cfg.root p
  else serveStaticFile fs cfg.root p

/-- The pathname part of `url.split('?')`. -/
def lookupPathOf (url : Str) : Str := (splitOnChar '?' url).headD []

/-- The query part of `url.split('?')` (`search ?? ''`). -/
def searchOf (url : Str) : Str := ((splitOnChar '?' url).drop 1).headD []

/-- `handleRequest` with no base path configured.  The `try/catch` of the
source wraps only the extension dispatch; an exception anywhere else (in the
model: a failing read in `servePublic`) leaves the function as an error,
i.e. an unhandled rejection. -/
def handleRequest (cfg : Config) (fs : Fs) (url : Str) (now : Nat) :
    Except Str Response :=
  if lookupPathOf url = str "/" then .ok (redirectResp (str "/index.html"))
  else if lookupPathOf url = str "/@hmr-client" then
    .ok { status := 200, contentType := str "application/javascript",
          body := cfg.hmrClientCode }
  else if lookupPathOf url = str "/@env" ∧ cfg.envPfx ≠ none then
    .ok (serveEnvResp fs (cfg.envPfx.getD []) cfg.publicEnv)
  else if lookupPathOf url = [] then .ok (redirectResp (str "index.html"))
  else
    match tryProxy cfg.fetchF (normalizeProxy cfg.proxy) (lookupPathOf url) (searchOf url) with
    | some r => .ok r
    | none =>
      match servePublicM fs cfg.root (lookupPathOf url) with
      | .error e => .error e
      | .ok (some r) => .ok r
      | .ok none =>
        match (if (str "/@node_modules/").isPrefixOf (lookupPathOf url)
               then cfg.nodeModuleH (lookupPathOf url) else none) with
        | some r => .ok r
        | none =>
          match dispatchByExt cfg fs (lookupPathOf url) now with
          | .ok r => .ok r
          | .error e =>
            .ok { status := 500, contentType := str "text/plain", body := e }

/-! ### File-change handling and broadcasting -/

structure WsClient where
  id : Nat
  readyState : Nat
  deriving DecidableEq, Repr

/-- The `{type, path, timestamp}` frame sent to clients. -/
structure HmrMsg where
  mtype : Str
  mpath : Str
  timestamp : Nat
  deriving DecidableEq, Repr

/-- `broadcast`: send the message to every client whose `readyState` is
`1` (OPEN); others are silently skipped. -/
def broadcast (clients : List WsClient) (msg : HmrMsg) : List (Nat × HmrMsg) :=
  clients.filterMap fun c => if c.readyState = 1 then some (c.id, msg) else none

structure ModuleInfo where
  code : Str
  timestamp : Nat
  url : Str
  deriving DecidableEq, Repr

/-- The server-relative URL computed by `handleFileChange`:
`file.replace(root, '').replace(/\\/g, '/')` with a leading `/` restored. -/
def fileChangeUrl (root file : Str) : Str :=
  let rel := replaceAllChar '\\' (str "/") (replaceFirst file root [])
  if rel.head? = some '/' then rel else '/' :: rel

/-- `handleFileChange`: delete the module-registry entry for the changed
URL and broadcast `{type: "update", path, timestamp: Date.now()}`; `now` is
the wall-clock reading at this event. -/
def handleFileChange (root basePfxS : Str) (graph : List (Str × ModuleInfo))
    (clients : List WsClient) (file : Str) (now : Nat) :
    (List (Str × ModuleInfo)) × List (Nat × HmrMsg) :=
  let url := fileChangeUrl root file
  let graph2 := graph.filter fun q => ¬ q.1 = url
  let pathForClient := if basePfxS ≠ [] then basePfxS ++ url else url
  (graph2, broadcast clients { mtype := str "update", mpath := pathForClient, timestamp := now })

/-! ### Shutdown (`stop`) -/

inductive StopEvent where
  | watcherClose
  | clientClose (id : Nat)
  | wssClose
  | httpClose
  | resolved
  deriving DecidableEq, Repr

/-- The live resources of a running server. -/
structure TeardownState where
  watcher : Bool
  wss : Bool
  clients : List Nat
  httpServer : Bool
  deriving DecidableEq, Repr

/-- `stop()` as a trace of teardown events in program order: close the
watcher, then close every client and clear the set (and the socket
server), then close the HTTP listener; the returned promise resolves only
after the listener's close callback ran. -/
def stopTrace (s : TeardownState) : List StopEvent × TeardownState :=
  let e1 : List StopEvent := if s.watcher then [.watcherClose] else []
  let s1 : TeardownState := { s with watcher := false }
  let e2 : List StopEvent :=
    if s1.wss then s1.clients.map .clientClose ++ [.wssClose] else []
  let s2 : TeardownState :=
    if s1.wss then { s1 with clients := [], wss := false } else s1
  let e3 : List StopEvent :=
    if s2.httpServer then [.httpClose, .resolved] else [.resolved]
  let s3 : TeardownState := { s2 with httpServer := false }
  (e1 ++ e2 ++ e3, s3)

end MiniDev

/-! ### Request sequences for the env endpoint, and concrete fixtures -/

namespace MiniDev

/-- One `serveEnv` state transition, with the dot-env file contents visible
at this request given as a pair (`.env`, `.env.local`). -/
def serveEnvStep (pfx : Str) (files : Option Str × Option Str)
    (st : List (Str × Str)) : List (Str × Str) :=
  if st.isEmpty then loadPublicEnv files.1 files.2 pfx else st

/-- The cached-state trace over a sequence of env-endpoint requests, each
seeing possibly different dot-env file contents; entry `i` is the state the
`i`-th response body is serialized from. -/
def envTrace (pfx : Str) : List (Option Str × Option Str) → List (Str × Str) →
    List (List (Str × Str))
  | [], _ => []
  | r :: rs, st =>
    let st2 := serveEnvStep pfx r st
    st2 :: envTrace pfx rs st2

/-- A filesystem holding a single file `/home/user/secret.txt` that lies
OUTSIDE the served root `/home/user/app` (no `public/` directory). -/
def fsOutsideRoot : Fs :=
  { fsExists := fun p => p == str "/home/user/secret.txt",
    fsIsFile := fun _ => true,
    fsRead := fun p =>
      if p == str "/home/user/secret.txt" then .ok (str "TOP-SECRET")
      else .error (str "ENOENT") }

/-- A filesystem whose `public/a.png` exists but cannot be read
(e.g. `EACCES`). -/
def fsUnreadablePublic : Fs :=
  { fsExists := fun p => p == str "/r/public" || p == str "/r/public/a.png",
    fsIsFile := fun p => p == str "/r/public/a.png",
    fsRead := fun _ => .error (str "EACCES: permission denied") }

/-- A filesystem holding one HTML file with neither a `</head>` nor a
`</html>` closing tag. -/
def fsNoHead : Fs :=
  { fsExists := fun p => p == str "/r/nohead.html",
    fsIsFile := fun p => p == str "/r/nohead.html",
    fsRead := fun p =>
      if p == str "/r/nohead.html" then .ok (str "<body>Hi</body>")
      else .error (str "ENOENT") }

/-- A filesystem holding one CSS file whose read fails (e.g. an I/O
error), with no `public/` directory. -/
def fsReadFail : Fs :=
  { fsExists := fun p => p == str "/r/style.css",
    fsIsFile := fun p => p == str "/r/style.css",
    fsRead := fun _ => .error (str "EIO: i/o error") }

end MiniDev



/-! ### Substring counting lemmas -/

namespace MiniDev

theorem isPrefixOf_head_eq {p s : Str} (h : p <+: s) (hp : p ≠ []) :
    p.head? = s.head? := by
  obtain ⟨t, rfl⟩ := h
  cases p with
  | nil => exact absurd rfl hp
  | cons a q => rfl

theorem isPrefixOf_nil_eq_false {pat : Str} (hne : pat ≠ []) :
    pat.isPrefixOf ([] : Str) = false := by
  cases pat with
  | nil => exact absurd rfl hne
  | cons a q => rfl

theorem containsSub_eq_false_of_countSub_zero {s pat : Str}
    (h : countSub s pat = 0) : containsSub s pat = false := by
  induction s with
  | nil =>
    unfold countSub at h
    unfold containsSub
    split at h
    · exact absurd h (by decide)
    · rename_i hfalse
      simp only [Bool.not_eq_true] at hfalse
      exact hfalse
  | cons c t ih =>
    unfold countSub at h
    unfold containsSub
    rcases Nat.add_eq_zero.mp h with ⟨h1, h2⟩
    have hpf : pat.isPrefixOf (c :: t) = false := by
      by_contra hx
      simp only [Bool.not_eq_false] at hx
      simp [hx] at h1
    simp [hpf, ih h2]

theorem replaceFirst_decomp {s pat : Str} (rep : Str)
    (h : containsSub s pat = true) :
    ∃ a b, s = a ++ pat ++ b ∧ replaceFirst s pat rep = a ++ rep ++ b := by
  induction s with
  | nil =>
    unfold containsSub at h
    have hp : pat <+: ([] : Str) := List.isPrefixOf_iff_prefix.mp h
    have : pat = [] := List.prefix_nil.mp hp
    subst this
    exact ⟨[], [], rfl, by simp only [List.nil_append, List.append_nil]; rfl⟩
  | cons c t ih =>
    unfold containsSub at h
    simp only [Bool.or_eq_true] at h
    by_cases hpf : pat.isPrefixOf (c :: t) = true
    · have hp : pat <+: (c :: t) := List.isPrefixOf_iff_prefix.mp hpf
      obtain ⟨b, hb⟩ := hp
      refine ⟨[], b, by simpa using hb.symm, ?_⟩
      unfold replaceFirst
      simp only [hpf, if_true]
      have : (c :: t).drop pat.length = b := by
        rw [← hb]
        simp [List.drop_left]
      simp [this]
    · have hc : containsSub t pat = true := by
        rcases h with h | h
        · exact absurd h hpf
        · exact h
      obtain ⟨a, b, hs, hr⟩ := ih hc
      refine ⟨c :: a, b, by simp [hs], ?_⟩
      unfold replaceFirst
      simp only [hpf, if_false, Bool.false_eq_true]
      simp [hr]

theorem countSub_append (x y pat : Str) :
    countSub (x ++ y) pat = countIn x y pat + countSub y pat := by
  induction x with
  | nil => simp [countIn]
  | cons c t ih =>
    have h1 : countSub ((c :: t) ++ y) pat
        = (if pat.isPrefixOf (c :: (t ++ y)) = true then 1 else 0) + countSub (t ++ y) pat := rfl
    have h2 : countIn (c :: t) y pat
        = (if pat.isPrefixOf (c :: (t ++ y)) = true then 1 else 0) + countIn t y pat := rfl
    rw [h1, h2, ih]
    omega

theorem noStraddle_of_head {pat y : Str} {c : Char} (hy : y.head? = some c)
    (hpat : ∀ k : Nat, pat[k]? ≠ some c) : NoStraddle pat y := by
  intro k hk0 hkl hpre
  have hne : pat.drop k ≠ [] := by
    have : (pat.drop k).length = pat.length - k := List.length_drop k pat
    intro hnil
    rw [hnil] at this
    simp at this
    omega
  have hhead : (pat.drop k).head? = y.head? := isPrefixOf_head_eq hpre hne
  rw [List.head?_drop] at hhead
  rw [hy] at hhead
  exact hpat k hhead

theorem not_getElem_of_not_mem {l : Str} {c : Char} (h : c ∉ l) :
    ∀ k : Nat, l[k]? ≠ some c := by
  intro k hk
  obtain ⟨hlt, rfl⟩ := List.getElem?_eq_some.mp hk
  exact h (List.getElem_mem hlt)

theorem prefix_append_iff_of_noStraddle {z y pat : Str}
    (hz : z ≠ []) (hns : NoStraddle pat y) :
    (pat <+: z ++ y) ↔ (pat <+: z) := by
  constructor
  · intro h
    by_cases hlen : pat.length ≤ z.length
    · have htake : pat = (z ++ y).take pat.length := List.prefix_iff_eq_take.mp h
      rw [List.take_append_eq_append_take] at htake
      rw [Nat.sub_eq_zero_of_le hlen] at htake
      simp only [List.take_zero, List.append_nil] at htake
      rw [List.prefix_iff_eq_take]
      exact htake
    · exfalso
      push_neg at hlen
      have htake : pat = (z ++ y).take pat.length := List.prefix_iff_eq_take.mp h
      have hdrop : pat.drop z.length = ((z ++ y).take pat.length).drop z.length := by
        rw [← htake]
      rw [List.drop_take] at hdrop
      rw [List.drop_left] at hdrop
      have hpre : pat.drop z.length <+: y := by
        rw [hdrop]
        exact List.take_prefix _ y
      have hz0 : 0 < z.length := List.length_pos.mpr hz
      exact hns z.length hz0 hlen hpre
  · intro h
    exact h.trans (List.prefix_append z y)

theorem countIn_eq_countSub {y pat : Str} (x : Str) (hne : pat ≠ [])
    (hns : NoStraddle pat y) : countIn x y pat = countSub x pat := by
  induction x with
  | nil =>
    unfold countIn countSub
    have : pat.isPrefixOf ([] : Str) = false := by
      by_contra hx
      simp only [Bool.not_eq_false] at hx
      exact hne (List.prefix_nil.mp (List.isPrefixOf_iff_prefix.mp hx))
    simp [this]
  | cons c t ih =>
    unfold countIn countSub
    rw [ih]
    have heq : pat.isPrefixOf (c :: (t ++ y)) = pat.isPrefixOf (c :: t) := by
      have hcons : c :: (t ++ y) = (c :: t) ++ y := rfl
      rw [hcons]
      by_cases hp : pat.isPrefixOf ((c :: t) ++ y) = true
      · have := (prefix_append_iff_of_noStraddle (by simp) hns).mp
          (List.isPrefixOf_iff_prefix.mp hp)
        rw [hp, (List.isPrefixOf_iff_prefix.mpr this)]
      · have hp2 : pat.isPrefixOf (c :: t) = false := by
          by_contra hx
          simp only [Bool.not_eq_false] at hx
          exact hp (List.isPrefixOf_iff_prefix.mpr
            ((prefix_append_iff_of_noStraddle (by simp) hns).mpr
              (List.isPrefixOf_iff_prefix.mp hx)))
        simp only [Bool.not_eq_true] at hp
        rw [hp, hp2]
    rw [heq]

theorem countSub_block {a tail pat : Str} (hne : pat ≠ [])
    (hns : NoStraddle pat tail) :
    countSub (a ++ tail) pat = countSub a pat + countSub tail pat := by
  rw [countSub_append, countIn_eq_countSub a hne hns]

end MiniDev

/-! ### Theorems: HTML escaping (claim C9) -/

namespace MiniDev

theorem escapeHtml_append (a b : Str) :
    escapeHtml (a ++ b) = escapeHtml a ++ escapeHtml b := by
  unfold escapeHtml replaceAllChar
  simp [List.flatMap_append]

theorem escapeHtml_single (c : Char) : escapeHtml [c] = encodeChar c := by
  by_cases h1 : c = '&'
  · subst h1; rfl
  by_cases h2 : c = '<'
  · subst h2; rfl
  by_cases h3 : c = '>'
  · subst h3; rfl
  by_cases h4 : c = '"'
  · subst h4; rfl
  unfold escapeHtml replaceAllChar encodeChar
  simp [h1, h2, h3, h4]

theorem escapeHtml_eq_spec (s : Str) : escapeHtml s = escapeHtmlSpec s := by
  induction s with
  | nil => rfl
  | cons c t ih =>
    have hsplit : (c :: t) = [c] ++ t := rfl
    rw [hsplit, escapeHtml_append, escapeHtml_single, ih]
    rfl

theorem escapeHtml_no_markup (s : Str) :
    ∀ c ∈ escapeHtml s, c ≠ '<' ∧ c ≠ '>' ∧ c ≠ '"' := by
  intro c hc
  rw [escapeHtml_eq_spec] at hc
  unfold escapeHtmlSpec at hc
  obtain ⟨x, hx, hcx⟩ := List.mem_flatMap.mp hc
  unfold encodeChar at hcx
  by_cases h1 : x = '&'
  · simp only [h1, if_true] at hcx
    exact (by decide : ∀ y ∈ str "&amp;", y ≠ '<' ∧ y ≠ '>' ∧ y ≠ '"') c hcx
  by_cases h2 : x = '<'
  · simp only [h1, h2, if_false, if_true] at hcx
    exact (by decide : ∀ y ∈ str "&lt;", y ≠ '<' ∧ y ≠ '>' ∧ y ≠ '"') c hcx
  by_cases h3 : x = '>'
  · simp only [h1, h2, h3, if_false, if_true] at hcx
    exact (by decide : ∀ y ∈ str "&gt;", y ≠ '<' ∧ y ≠ '>' ∧ y ≠ '"') c hcx
  by_cases h4 : x = '"'
  · simp only [h1, h2, h3, h4, if_false, if_true] at hcx
    exact (by decide : ∀ y ∈ str "&quot;", y ≠ '<' ∧ y ≠ '>' ∧ y ≠ '"') c hcx
  · simp only [h1, h2, h3, h4, if_false] at hcx
    simp only [List.mem_singleton] at hcx
    subst hcx
    exact ⟨h2, h3, h4⟩

/-- C9.  The 404 listing page escapes `&`, `<`, `>`, `"` in both the echoed
request path and every listed path (in the anchor href and text): the page
is the fixed template around the specification-escaped fragments, and no
escaped fragment contains a raw `<`, `>` or `"`. -/
theorem c9_serve404_escapes (p : Str) (paths : List Str) :
    serve404Html p paths
      = page404Pre ++ escapeHtmlSpec p ++ page404Mid ++
          List.intercalate (str "\n")
            (paths.map fun q =>
              str "<li><a href=\"" ++ escapeHtmlSpec q ++ str "\">" ++
                escapeHtmlSpec q ++ str "</a></li>")
          ++ page404Post
    ∧ (∀ c ∈ escapeHtml p, c ≠ '<' ∧ c ≠ '>' ∧ c ≠ '"')
    ∧ (∀ q ∈ paths, ∀ c ∈ escapeHtml q, c ≠ '<' ∧ c ≠ '>' ∧ c ≠ '"') := by
  refine ⟨?_, escapeHtml_no_markup p, fun q _ => escapeHtml_no_markup q⟩
  unfold serve404Html listItemHtml
  simp only [escapeHtml_eq_spec]

/-- Witness for C9 at a concrete hostile path list. -/
theorem c9_serve404_escapes_witness :
    (∀ q ∈ [str "/a&b\".html"], ∀ c ∈ escapeHtml q, c ≠ '<' ∧ c ≠ '>' ∧ c ≠ '"') ∧
    (∀ c ∈ escapeHtml (str "/<script>alert(1)</script>"), c ≠ '<' ∧ c ≠ '>' ∧ c ≠ '"') :=
  ⟨(c9_serve404_escapes (str "/<script>alert(1)</script>") [str "/a&b\".html"]).2.2,
   (c9_serve404_escapes (str "/<script>alert(1)</script>") [str "/a&b\".html"]).2.1⟩

end MiniDev

/-! ### Theorems: env-variable filtering (claims C2, C10) -/

namespace MiniDev

theorem nil_isPrefixOf (l : Str) : ([] : Str).isPrefixOf l = true := by
  cases l <;> rfl

theorem loadPublicEnv_keys (envFile envLocalFile : Option Str) (pfx : Str) :
    ∀ q ∈ loadPublicEnv envFile envLocalFile pfx, pfx.isPrefixOf q.1 = true := by
  intro q hq
  unfold loadPublicEnv at hq
  by_cases hp : pfx = []
  · subst hp
    exact nil_isPrefixOf q.1
  · rw [if_neg hp] at hq
    exact (List.mem_filter.mp hq).2

theorem envTrace_inv (pfx : Str) (reqs : List (Option Str × Option Str))
    (st : List (Str × Str)) (hst : ∀ q ∈ st, pfx.isPrefixOf q.1 = true) :
    ∀ st2 ∈ envTrace pfx reqs st, ∀ q ∈ st2, pfx.isPrefixOf q.1 = true := by
  induction reqs generalizing st with
  | nil =>
    intro st2 hmem
    simp [envTrace] at hmem
  | cons r rs ih =>
    intro st2 hmem
    have hstep : ∀ q ∈ serveEnvStep pfx r st, pfx.isPrefixOf q.1 = true := by
      unfold serveEnvStep
      split
      · exact loadPublicEnv_keys r.1 r.2 pfx
      · exact hst
    unfold envTrace at hmem
    rcases List.mem_cons.mp hmem with h | h
    · subst h
      exact hstep
    · exact ih (serveEnvStep pfx r st) hstep st2 h

/-- C2.  Over any sequence of requests to the env endpoint (each possibly
seeing different `.env`/`.env.local` contents), every variable name in the
state the response body serializes starts with the configured prefix; in
particular a name such as `SECRET_KEY` that does not match the prefix never
occurs. -/
theorem c2_env_names_prefixed (pfx : Str) (reqs : List (Option Str × Option Str)) :
    (∀ st ∈ envTrace pfx reqs [], ∀ q ∈ st, pfx.isPrefixOf q.1 = true) ∧
    (pfx.isPrefixOf (str "SECRET_KEY") = false →
      ∀ st ∈ envTrace pfx reqs [], ∀ q ∈ st, q.1 ≠ str "SECRET_KEY") := by
  have hmain := envTrace_inv pfx reqs [] (by intro q hq; cases hq)
  refine ⟨hmain, ?_⟩
  intro hsec st hst q hq hkey
  have := hmain st hst q hq
  rw [hkey] at this
  rw [this] at hsec
  cases hsec

/-- Witness for C2: with prefix `PUBLIC_` and a dot-env file that contains
`SECRET_KEY`, no state of the (two-request) trace contains that key. -/
theorem c2_env_names_prefixed_witness :
    ∀ st ∈ envTrace (str "PUBLIC_")
        [(some (str "PUBLIC_API_URL=http://localhost:8080\nSECRET_KEY=do-not-expose\nPUBLIC_APP_NAME=my-app"), none),
         (some (str "SECRET_KEY=do-not-expose"), none)] [],
      ∀ q ∈ st, q.1 ≠ str "SECRET_KEY" :=
  (c2_env_names_prefixed (str "PUBLIC_")
    [(some (str "PUBLIC_API_URL=http://localhost:8080\nSECRET_KEY=do-not-expose\nPUBLIC_APP_NAME=my-app"), none),
     (some (str "SECRET_KEY=do-not-expose"), none)]).2 (by decide)

/-- C10.  The env endpoint caches in memory: with a non-empty cached state,
a request neither reloads nor depends on the current dot-env files, and the
state (hence the serialized body) stays the same over any further request
sequence; with an empty cached state the files are (re)read. -/
theorem c10_env_cache (pfx : Str) (st : List (Str × Str))
    (e1 l1 e2 l2 : Option Str) (reqs : List (Option Str × Option Str)) :
    (st ≠ [] →
      serveEnvStep pfx (e1, l1) st = st ∧
      serveEnvStep pfx (e1, l1) st = serveEnvStep pfx (e2, l2) st ∧
      serveEnvBody (serveEnvStep pfx (e1, l1) st) = serveEnvBody st ∧
      ∀ st2 ∈ envTrace pfx reqs st, st2 = st) ∧
    serveEnvStep pfx (e1, l1) [] = loadPublicEnv e1 l1 pfx := by
  constructor
  · intro hne
    have hemp : st.isEmpty = false := by
      cases st with
      | nil => exact absurd rfl hne
      | cons a t => rfl
    have hid : serveEnvStep pfx (e1, l1) st = st := by
      unfold serveEnvStep
      rw [hemp]
      rfl
    have hid2 : serveEnvStep pfx (e2, l2) st = st := by
      unfold serveEnvStep
      rw [hemp]
      rfl
    refine ⟨hid, by rw [hid, hid2], by rw [hid], ?_⟩
    induction reqs with
    | nil =>
      intro st2 hmem
      simp [envTrace] at hmem
    | cons r rs ih =>
      intro st2 hmem
      unfold envTrace at hmem
      have hstep : serveEnvStep pfx r st = st := by
        unfold serveEnvStep
        rw [hemp]
        rfl
      rw [hstep] at hmem
      rcases List.mem_cons.mp hmem with h | h
      · exact h
      · exact ih st2 h
  · unfold serveEnvStep
    rfl

/-- Witness for C10 at a concrete non-empty cached state and changed files. -/
theorem c10_env_cache_witness :
    serveEnvStep (str "PUBLIC_") (some (str "PUBLIC_X=changed"), none)
        [(str "PUBLIC_X", str "1")] = [(str "PUBLIC_X", str "1")] ∧
    serveEnvStep (str "PUBLIC_") (some (str "PUBLIC_X=1"), none) [] =
      loadPublicEnv (some (str "PUBLIC_X=1")) none (str "PUBLIC_") :=
  ⟨((c10_env_cache (str "PUBLIC_") [(str "PUBLIC_X", str "1")]
      (some (str "PUBLIC_X=changed")) none none none []).1 (by decide)).1,
   (c10_env_cache (str "PUBLIC_") [(str "PUBLIC_X", str "1")]
      (some (str "PUBLIC_X=1")) none none none []).2⟩

end MiniDev

/-! ### Theorems: proxy longest-prefix selection (claim C5) -/

namespace MiniDev

/-- Descending path-length order between rules. -/
def ruleLenGE (a b : ProxyRule) : Prop := b.path.length ≤ a.path.length

theorem mem_insertRule {b r : ProxyRule} : ∀ {l : List ProxyRule},
    b ∈ insertRule r l ↔ b = r ∨ b ∈ l := by
  intro l
  induction l with
  | nil => simp [insertRule]
  | cons x xs ih =>
    unfold insertRule
    split
    · simp [List.mem_cons]
    · simp only [List.mem_cons, ih]
      tauto

theorem insertRule_pairwise (r : ProxyRule) :
    ∀ (l : List ProxyRule), l.Pairwise ruleLenGE → (insertRule r l).Pairwise ruleLenGE := by
  intro l
  induction l with
  | nil =>
    intro _
    simp [insertRule]
  | cons x xs ih =>
    intro h
    obtain ⟨h1, h2⟩ := List.pairwise_cons.mp h
    unfold insertRule
    split
    · rename_i hlt
      refine List.pairwise_cons.mpr ⟨?_, h⟩
      intro b hb
      rcases List.mem_cons.mp hb with rfl | hb2
      · exact Nat.le_of_lt hlt
      · have := h1 b hb2
        unfold ruleLenGE at *
        omega
    · rename_i hge
      push_neg at hge
      refine List.pairwise_cons.mpr ⟨?_, ih h2⟩
      intro b hb
      rcases mem_insertRule.mp hb with rfl | hb2
      · exact hge
      · exact h1 b hb2

theorem sortRules_pairwise (l : List ProxyRule) :
    (sortRules l).Pairwise ruleLenGE := by
  unfold sortRules
  have main : ∀ (l2 : List ProxyRule) (acc : List ProxyRule),
      acc.Pairwise ruleLenGE →
      (l2.foldl (fun acc r => insertRule r acc) acc).Pairwise ruleLenGE := by
    intro l2
    induction l2 with
    | nil => intro acc h; exact h
    | cons x xs ih =>
      intro acc h
      exact ih (insertRule x acc) (insertRule_pairwise x acc h)
  exact main l [] List.Pairwise.nil

theorem mem_sortRules {b : ProxyRule} {l : List ProxyRule} :
    b ∈ sortRules l ↔ b ∈ l := by
  unfold sortRules
  have main : ∀ (l2 acc : List ProxyRule),
      b ∈ l2.foldl (fun acc r => insertRule r acc) acc ↔ b ∈ l2 ∨ b ∈ acc := by
    intro l2
    induction l2 with
    | nil => intro acc; simp
    | cons x xs ih =>
      intro acc
      rw [List.foldl_cons, ih (insertRule x acc)]
      rw [mem_insertRule]
      simp [List.mem_cons]
      tauto
  rw [main l []]
  simp

theorem find?_max_of_pairwise {l : List ProxyRule} {p : ProxyRule → Bool}
    {r : ProxyRule} (hp : l.Pairwise ruleLenGE) (hf : l.find? p = some r) :
    ∀ x ∈ l, p x = true → x.path.length ≤ r.path.length := by
  induction l with
  | nil => cases hf
  | cons a t ih =>
    obtain ⟨h1, h2⟩ := List.pairwise_cons.mp hp
    by_cases hpa : p a = true
    · rw [List.find?_cons_of_pos _ hpa] at hf
      injection hf with hf
      subst hf
      intro x hx hpx
      rcases List.mem_cons.mp hx with rfl | hx2
      · exact Nat.le_refl _
      · exact h1 x hx2
    · rw [List.find?_cons_of_neg _ (by simpa using hpa)] at hf
      intro x hx hpx
      rcases List.mem_cons.mp hx with rfl | hx2
      · exact absurd hpx hpa
      · exact ih h2 hf x hx2 hpx

/-- C5.  When `tryProxy` selects a rule for a logical path, the selected
rule matches the path (equality or prefix-plus-`/`), and its path prefix is
at least as long as that of every configured rule that matches — the most
specific prefix wins. -/
theorem c5_longest_prefix_wins (proxy : List (Str × Str)) (p : Str)
    (r : ProxyRule) (hf : findProxyRule (normalizeProxy proxy) p = some r) :
    ruleMatches p r = true ∧
    ∀ e ∈ proxy, ruleMatches p (normalizeRule e) = true →
      (normalizeRule e).path.length ≤ r.path.length := by
  constructor
  · exact List.find?_some hf
  · intro e he hm
    have hmem : normalizeRule e ∈ normalizeProxy proxy := by
      unfold normalizeProxy
      exact mem_sortRules.mpr (List.mem_map_of_mem _ he)
    exact find?_max_of_pairwise (sortRules_pairwise _) hf _ hmem hm

/-- Witness for C5: with rules for `/api` and `/api/v2`, a request to
`/api/v2/items` selects the `/api/v2` rule, and is forwarded by
concatenation onto that rule's target. -/
theorem c5_longest_prefix_wins_witness :
    findProxyRule
        (normalizeProxy [(str "/api", str "http://localhost:9999"),
                         (str "/api/v2", str "http://localhost:8888")])
        (str "/api/v2/items")
      = some { path := str "/api/v2", target := str "http://localhost:8888" } ∧
    ruleMatches (str "/api/v2/items")
        { path := str "/api/v2", target := str "http://localhost:8888" } = true ∧
    (∀ e ∈ [(str "/api", str "http://localhost:9999"),
            (str "/api/v2", str "http://localhost:8888")],
      ruleMatches (str "/api/v2/items") (normalizeRule e) = true →
        (normalizeRule e).path.length
          ≤ (str "/api/v2" : Str).length) ∧
    proxyUrl { path := str "/api/v2", target := str "http://localhost:8888" }
        (str "/api/v2/items") []
      = str "http://localhost:8888/api/v2/items" := by
  have hf : findProxyRule
      (normalizeProxy [(str "/api", str "http://localhost:9999"),
                       (str "/api/v2", str "http://localhost:8888")])
      (str "/api/v2/items")
      = some { path := str "/api/v2", target := str "http://localhost:8888" } := by decide
  have h := c5_longest_prefix_wins
    [(str "/api", str "http://localhost:9999"), (str "/api/v2", str "http://localhost:8888")]
    (str "/api/v2/items") _ hf
  exact ⟨hf, h.1, h.2, by decide⟩

end MiniDev

/-! ### Theorems: import path resolution (claim C6) -/

namespace MiniDev

theorem head?_append_left {a : Str} (b : Str) (h : a ≠ []) :
    (a ++ b).head? = a.head? := by
  cases a with
  | nil => exact absurd rfl h
  | cons x t => rfl

theorem addExtension_eq_policy (fs : Fs) (root p : Str) :
    addExtension fs root p = p ++ extensionPolicySpec fs root p := by
  unfold addExtension extensionPolicySpec
  by_cases hA : fs.fsExists (joinPaths root (p.drop 1 ++ str ".tsx")) = true
  · rw [@List.find?_cons_of_pos _ (fun e => fs.fsExists (joinPaths root (p.drop 1 ++ e)))
        (str ".tsx") [str ".ts", str ".js"] hA, if_pos hA]
    rfl
  · rw [@List.find?_cons_of_neg _ (fun e => fs.fsExists (joinPaths root (p.drop 1 ++ e)))
        (str ".tsx") [str ".ts", str ".js"] hA, if_neg hA]
    by_cases hB : fs.fsExists (joinPaths root (p.drop 1 ++ str ".ts")) = true
    · rw [@List.find?_cons_of_pos _ (fun e => fs.fsExists (joinPaths root (p.drop 1 ++ e)))
          (str ".ts") [str ".js"] hB, if_pos hB]
      rfl
    · rw [@List.find?_cons_of_neg _ (fun e => fs.fsExists (joinPaths root (p.drop 1 ++ e)))
          (str ".ts") [str ".js"] hB, if_neg hB]
      by_cases hC : fs.fsExists (joinPaths root (p.drop 1 ++ str ".js")) = true
      · rw [@List.find?_cons_of_pos _ (fun e => fs.fsExists (joinPaths root (p.drop 1 ++ e)))
            (str ".js") [] hC, if_pos hC]
        rfl
      · rw [@List.find?_cons_of_neg _ (fun e => fs.fsExists (joinPaths root (p.drop 1 ++ e)))
            (str ".js") [] hC, if_neg hC]
        rfl

/-- C6.  For every relative (`.`-led) or server-rooted (`/`-led) specifier
and every importer directory, `resolveImportPath` totally computes a string
beginning with `/`; the result is the pre-extension resolution `r0` as is
when it has an extension, and otherwise `r0` plus the first of `.tsx`,
`.ts`, `.js` whose file exists under the served root, defaulting to `.ts`. -/
theorem c6_resolver (fs : Fs) (root p d : Str)
    (h : p.head? = some '.' ∨ p.head? = some '/') :
    (resolveImportPath fs root p d).head? = some '/' ∧
    ∃ r0 : Str, r0.head? = some '/' ∧
      resolveImportPath fs root p d =
        (if extnameL r0 = [] then r0 ++ extensionPolicySpec fs root r0 else r0) := by
  unfold resolveImportPath
  by_cases habs : p.head? = some '/'
  · rw [if_pos habs]
    have hne : p ≠ [] := by
      intro hnil
      rw [hnil] at habs
      cases habs
    refine ⟨?_, p, habs, ?_⟩
    · by_cases hext : extnameL p = []
      · rw [if_pos hext, addExtension_eq_policy, head?_append_left _ hne]
        exact habs
      · rw [if_neg hext]
        exact habs
    · by_cases hext : extnameL p = []
      · rw [if_pos hext, if_pos hext, addExtension_eq_policy]
      · rw [if_neg hext, if_neg hext]
  · rw [if_neg habs]
    by_cases hs : (resolveRelRaw p d).head? = some '/'
    · rw [if_pos hs]
      have hne : resolveRelRaw p d ≠ [] := by
        intro hnil
        rw [hnil] at hs
        cases hs
      refine ⟨?_, resolveRelRaw p d, hs, ?_⟩
      · by_cases hext : extnameL (resolveRelRaw p d) = []
        · rw [if_pos hext, addExtension_eq_policy, head?_append_left _ hne]
          exact hs
        · rw [if_neg hext]
          exact hs
      · by_cases hext : extnameL (resolveRelRaw p d) = []
        · rw [if_pos hext, if_pos hext, addExtension_eq_policy]
        · rw [if_neg hext, if_neg hext]
    · rw [if_neg hs]
      refine ⟨?_, '/' :: resolveRelRaw p d, rfl, ?_⟩
      · by_cases hext : extnameL ('/' :: resolveRelRaw p d) = []
        · rw [if_pos hext, addExtension_eq_policy, head?_append_left]
          · rfl
          · intro hnil
            cases hnil
        · rw [if_neg hext]
          rfl
      · by_cases hext : extnameL ('/' :: resolveRelRaw p d) = []
        · rw [if_pos hext, if_pos hext, addExtension_eq_policy]
        · rw [if_neg hext, if_neg hext]

/-- Witness for C6 at `./foo` imported from `/src` over an empty
filesystem (the `.ts` default fires). -/
theorem c6_resolver_witness :
    (resolveImportPath
        (Fs.mk (fun _ => false) (fun _ => false) (fun _ => .error []) none none [])
        (str "/r") (str "./foo") (str "/src")).head? = some '/' ∧
    resolveImportPath
        (Fs.mk (fun _ => false) (fun _ => false) (fun _ => .error []) none none [])
        (str "/r") (str "./foo") (str "/src") = str "/src/foo.ts" :=
  ⟨(c6_resolver
      (Fs.mk (fun _ => false) (fun _ => false) (fun _ => .error []) none none [])
      (str "/r") (str "./foo") (str "/src") (Or.inl rfl)).1,
   by decide⟩

end MiniDev

/-! ### Theorems: shutdown ordering (claim C8) -/

namespace MiniDev

/-- C8.  On a running server (watcher, socket server and HTTP listener all
live), `stop()` emits exactly: watcher close, then one close per connected
client followed by the socket-server close, then the HTTP-listener close;
the promise resolution is the last event (after the listener closed), and
the connection set is cleared. -/
theorem c8_stop_order (s : TeardownState) (hw : s.watcher = true)
    (hs : s.wss = true) (hh : s.httpServer = true) :
    (stopTrace s).1
      = .watcherClose ::
          (s.clients.map .clientClose ++ [.wssClose, .httpClose, .resolved]) ∧
    (stopTrace s).2 =
      { watcher := false, wss := false, clients := [], httpServer := false } ∧
    ((stopTrace s).1).getLast? = some .resolved := by
  have htr : (stopTrace s).1
      = .watcherClose ::
          (s.clients.map .clientClose ++ [.wssClose, .httpClose, .resolved]) := by
    unfold stopTrace
    simp [hw, hs, hh]
  refine ⟨htr, ?_, ?_⟩
  · unfold stopTrace
    simp [hw, hs, hh]
  · rw [htr]
    have hsplit :
        (StopEvent.watcherClose ::
            (s.clients.map .clientClose ++ [.wssClose, .httpClose, .resolved]) : List StopEvent)
          = (StopEvent.watcherClose ::
              (s.clients.map .clientClose ++ [.wssClose, .httpClose])) ++ [.resolved] := by
      simp
    rw [hsplit, List.getLast?_concat]

/-- Witness for C8 on a server with two connected clients. -/
theorem c8_stop_order_witness :
    (stopTrace { watcher := true, wss := true, clients := [1, 2], httpServer := true }).1
      = [.watcherClose, .clientClose 1, .clientClose 2, .wssClose, .httpClose, .resolved] ∧
    ((stopTrace { watcher := true, wss := true, clients := [1, 2], httpServer := true }).1).getLast?
      = some .resolved := by
  have h := c8_stop_order
    { watcher := true, wss := true, clients := [1, 2], httpServer := true } rfl rfl rfl
  exact ⟨h.1, h.2.2⟩

end MiniDev

/-! ### Theorems: file-change broadcasting (claim C3) -/

namespace MiniDev

theorem broadcast_mem_msg {clients : List WsClient} {msg : HmrMsg}
    {q : Nat × HmrMsg} (hq : q ∈ broadcast clients msg) : q.2 = msg := by
  induction clients with
  | nil => cases hq
  | cons a t ih =>
    by_cases hr : a.readyState = 1
    · have hcons : broadcast (a :: t) msg = (a.id, msg) :: broadcast t msg := by
        simp [broadcast, List.filterMap_cons, hr]
      rw [hcons] at hq
      rcases List.mem_cons.mp hq with h | h
      · rw [h]
      · exact ih h
    · have hcons : broadcast (a :: t) msg = broadcast t msg := by
        simp [broadcast, List.filterMap_cons, hr]
      rw [hcons] at hq
      exact ih hq

theorem broadcast_filter_nil {clients : List WsClient} {msg : HmrMsg} {i : Nat}
    (hni : i ∉ clients.map WsClient.id) :
    (broadcast clients msg).filter (fun q => q.1 == i) = [] := by
  induction clients with
  | nil => rfl
  | cons a t ih =>
    have hia : a.id ≠ i := by
      intro heq
      exact hni (by simp [← heq])
    have hnt : i ∉ t.map WsClient.id := by
      intro hmem
      refine hni ?_
      rw [List.map_cons]
      exact List.mem_cons_of_mem _ hmem
    by_cases hr : a.readyState = 1
    · have hcons : broadcast (a :: t) msg = (a.id, msg) :: broadcast t msg := by
        simp [broadcast, List.filterMap_cons, hr]
      rw [hcons, List.filter_cons]
      have hfalse : ((a.id, msg).1 == i) = false := by simp [hia]
      rw [hfalse]
      simp only [Bool.false_eq_true, if_false]
      exact ih hnt
    · have hcons : broadcast (a :: t) msg = broadcast t msg := by
        simp [broadcast, List.filterMap_cons, hr]
      rw [hcons]
      exact ih hnt

theorem broadcast_count_one {clients : List WsClient} {msg : HmrMsg}
    {c : WsClient} (hn : (clients.map WsClient.id).Nodup) (hc : c ∈ clients)
    (ho : c.readyState = 1) :
    ((broadcast clients msg).filter (fun q => q.1 == c.id)).length = 1 := by
  induction clients with
  | nil => cases hc
  | cons a t ih =>
    rw [List.map_cons, List.nodup_cons] at hn
    obtain ⟨hna, hnt⟩ := hn
    rcases List.mem_cons.mp hc with rfl | hct
    · have hcons : broadcast (c :: t) msg = (c.id, msg) :: broadcast t msg := by
        simp [broadcast, List.filterMap_cons, ho]
      rw [hcons, List.filter_cons]
      have htrue : ((c.id, msg).1 == c.id) = true := by simp
      rw [htrue]
      simp only [if_true]
      rw [broadcast_filter_nil hna]
      rfl
    · have hia : a.id ≠ c.id := by
        intro heq
        exact hna (heq ▸ List.mem_map_of_mem WsClient.id hct)
      by_cases hr : a.readyState = 1
      · have hcons : broadcast (a :: t) msg = (a.id, msg) :: broadcast t msg := by
          simp [broadcast, List.filterMap_cons, hr]
        rw [hcons, List.filter_cons]
        have hfalse : ((a.id, msg).1 == c.id) = false := by simp [hia]
        rw [hfalse]
        simp only [Bool.false_eq_true, if_false]
        exact ih hnt hct
      · have hcons : broadcast (a :: t) msg = broadcast t msg := by
          simp [broadcast, List.filterMap_cons, hr]
        rw [hcons]
        exact ih hnt hct

/-- C3 is refuted as stated: the broadcast timestamp is the wall-clock
reading (`Date.now()`), so two file-change events within the same
millisecond (here both at 1000) carry equal timestamps — the second is not
strictly greater than the first. -/
theorem c3_counterexample :
    (handleFileChange (str "/r") [] [] [⟨0, 1⟩] (str "/r/src/App.tsx") 1000).2
      = [(0, { mtype := str "update", mpath := str "/src/App.tsx", timestamp := 1000 })] ∧
    ¬ (1000 > (1000 : Nat)) := by
  constructor
  · decide
  · decide

/-- C3 amended.  Each file-change event broadcasts exactly one message to
each distinct open client, none to non-open clients; every broadcast
message carries the file's server-relative URL (base-prefixed when a base
is set) and the event's clock reading as timestamp, so timestamps are
non-decreasing across events and strictly increase whenever the clock
advanced between two edits. -/
theorem c3_amended (root basePfxS file1 file2 : Str)
    (g1 g2 : List (Str × ModuleInfo)) (clients : List WsClient) (c : WsClient)
    (t1 t2 : Nat) (hn : (clients.map WsClient.id).Nodup) (hc : c ∈ clients)
    (ho : c.readyState = 1) (hle : t1 ≤ t2) :
    (((handleFileChange root basePfxS g1 clients file1 t1).2.filter
        (fun q => q.1 == c.id)).length = 1) ∧
    (∀ q ∈ (handleFileChange root basePfxS g1 clients file1 t1).2,
      q.2.mpath = (if basePfxS ≠ [] then basePfxS ++ fileChangeUrl root file1
                   else fileChangeUrl root file1) ∧
      q.2.timestamp = t1) ∧
    (∀ q1 ∈ (handleFileChange root basePfxS g1 clients file1 t1).2,
      ∀ q2 ∈ (handleFileChange root basePfxS g2 clients file2 t2).2,
        q1.2.timestamp ≤ q2.2.timestamp ∧
        (t1 < t2 → q1.2.timestamp < q2.2.timestamp)) := by
  refine ⟨broadcast_count_one hn hc ho, ?_, ?_⟩
  · intro q hq
    have := broadcast_mem_msg hq
    rw [this]
    exact ⟨rfl, rfl⟩
  · intro q1 hq1 q2 hq2
    have h1 := broadcast_mem_msg hq1
    have h2 := broadcast_mem_msg hq2
    rw [h1, h2]
    exact ⟨hle, fun hlt => hlt⟩

/-- Witness for C3 (amended) with one open client and clock readings 1000
then 1001. -/
theorem c3_amended_witness :
    (((handleFileChange (str "/r") [] [] [⟨0, 1⟩] (str "/r/a.ts") 1000).2.filter
        (fun q => q.1 == 0)).length = 1) ∧
    (∀ q1 ∈ (handleFileChange (str "/r") [] [] [⟨0, 1⟩] (str "/r/a.ts") 1000).2,
      ∀ q2 ∈ (handleFileChange (str "/r") [] [] [⟨0, 1⟩] (str "/r/a.ts") 1001).2,
        q1.2.timestamp ≤ q2.2.timestamp ∧
        (1000 < 1001 → q1.2.timestamp < q2.2.timestamp)) := by
  have h := c3_amended (str "/r") [] (str "/r/a.ts") (str "/r/a.ts") [] []
    [⟨0, 1⟩] ⟨0, 1⟩ 1000 1001 (by decide) (by decide) rfl (by decide)
  exact ⟨h.1, h.2.2⟩

end MiniDev

/-! ### Theorems: client-runtime injection (claim C4) -/

namespace MiniDev

theorem needle_no_lt : ∀ k : Nat, (str "@hmr-client")[k]? ≠ some '<' :=
  not_getElem_of_not_mem (by decide)

theorem noStraddle_needle {y : Str} (hy : y.head? = some '<') :
    NoStraddle (str "@hmr-client") y :=
  noStraddle_of_head hy needle_no_lt

/-- Inserting the client-runtime tag right before an occurrence of a
`<`-led close tag in HTML free of `@hmr-client` yields exactly one
occurrence. -/
theorem countSub_insert_block (a b closeTag : Str)
    (hclose : closeTag.head? = some '<')
    (h0 : countSub (a ++ closeTag ++ b) (str "@hmr-client") = 0) :
    countSub (a ++ (hmrScriptTag ++ closeTag) ++ b) (str "@hmr-client") = 1 := by
  have hneNeedle : (str "@hmr-client") ≠ [] := by decide
  have hCloseNe : closeTag ≠ [] := by
    intro hnil
    rw [hnil] at hclose
    cases hclose
  have hheadCB : (closeTag ++ b).head? = some '<' := by
    rw [head?_append_left _ hCloseNe]
    exact hclose
  have hnsCB : NoStraddle (str "@hmr-client") (closeTag ++ b) :=
    noStraddle_needle hheadCB
  have hheadS : (hmrScriptTag ++ (closeTag ++ b)).head? = some '<' := by
    rw [head?_append_left _ (by decide : hmrScriptTag ≠ [])]
    rfl
  have hnsS : NoStraddle (str "@hmr-client") (hmrScriptTag ++ (closeTag ++ b)) :=
    noStraddle_needle hheadS
  have hsplit0 : a ++ closeTag ++ b = a ++ (closeTag ++ b) := by
    rw [List.append_assoc]
  rw [hsplit0, countSub_block hneNeedle hnsCB] at h0
  obtain ⟨ha0, hcb0⟩ := Nat.add_eq_zero.mp h0
  have hsplit1 : a ++ (hmrScriptTag ++ closeTag) ++ b
      = a ++ (hmrScriptTag ++ (closeTag ++ b)) := by
    simp [List.append_assoc]
  rw [hsplit1, countSub_block hneNeedle hnsS,
    countSub_block hneNeedle hnsCB, ha0, hcb0]
  decide

/-- C4 is refuted as stated: serving an HTML file that contains neither a
`</head>` nor a `</html>` closing tag injects nothing, so the response body
contains zero client-runtime script tags, not exactly one. -/
theorem c4_counterexample :
    serveHtml fsNoHead (str "/r") (str "/nohead.html")
      = .ok { status := 200, contentType := str "text/html",
              body := str "<body>Hi</body>" } ∧
    countSub (str "<body>Hi</body>") (str "@hmr-client") = 0 ∧
    ¬ countSub (str "<body>Hi</body>") (str "@hmr-client") = 1 := by
  refine ⟨by rfl, by decide, by decide⟩

/-- C4 amended.  In every served HTML body whose source contains a
`</head>` close tag — or no `</head>` but a `</html>` close tag — and no
client-runtime reference yet, exactly one client-runtime tag occurs after
injection; when the source already references the client runtime the body
is returned unchanged, so no second tag is ever added.  (A source with
neither close tag, per the counterexample, gets none.) -/
theorem c4_amended (html : Str) :
    (countSub html (str "@hmr-client") = 0 →
      containsSub html (str "</head>") = true →
      countSub (injectHmr html) (str "@hmr-client") = 1) ∧
    (countSub html (str "@hmr-client") = 0 →
      containsSub html (str "</head>") = false →
      containsSub html (str "</html>") = true →
      countSub (injectHmr html) (str "@hmr-client") = 1) ∧
    (containsSub html (str "@hmr-client") = true → injectHmr html = html) := by
  refine ⟨?_, ?_, ?_⟩
  · intro h0 hhead
    have hnc : containsSub html (str "@hmr-client") = false :=
      containsSub_eq_false_of_countSub_zero h0
    unfold injectHmr
    rw [if_neg (by simp [hnc, hhead]), if_pos (by simp [hnc])]
    obtain ⟨a, b, hdecomp, hrepl⟩ :=
      replaceFirst_decomp (hmrScriptTag ++ str "</head>") hhead
    rw [hrepl]
    rw [hdecomp] at h0
    exact countSub_insert_block a b (str "</head>") rfl h0
  · intro h0 hhead hhtml
    have hnc : containsSub html (str "@hmr-client") = false :=
      containsSub_eq_false_of_countSub_zero h0
    unfold injectHmr
    rw [if_pos (by simp [hnc, hhead])]
    obtain ⟨a, b, hdecomp, hrepl⟩ :=
      replaceFirst_decomp (hmrScriptTag ++ str "</html>") hhtml
    rw [hrepl]
    rw [hdecomp] at h0
    exact countSub_insert_block a b (str "</html>") rfl h0
  · intro hc
    unfold injectHmr
    rw [if_neg (by simp [hc]), if_neg (by simp [hc])]

/-- Witness for C4 (amended) on a head-tagged page, a head-less page with a
`</html>` tag, and a page already containing a hand-written tag. -/
theorem c4_amended_witness :
    countSub (injectHmr (str "<html><head></head><body></body></html>"))
        (str "@hmr-client") = 1 ∧
    countSub (injectHmr (str "<html><body></body></html>"))
        (str "@hmr-client") = 1 ∧
    injectHmr (str "<html><head><script type=\"module\" src=\"@hmr-client\"></script></head></html>")
      = str "<html><head><script type=\"module\" src=\"@hmr-client\"></script></head></html>" :=
  ⟨(c4_amended (str "<html><head></head><body></body></html>")).1
      (by decide) (by decide),
   (c4_amended (str "<html><body></body></html>")).2.1
      (by decide) (by decide) (by decide),
   (c4_amended (str "<html><head><script type=\"module\" src=\"@hmr-client\"></script></head></html>")).2.2
      (by decide)⟩

end MiniDev

/-! ### Theorems: directory traversal (claim C1) -/

namespace MiniDev

/-- C1 fails on the code: with served root `/home/user/app` (no `public/`
directory) and a file `/home/user/secret.txt` OUTSIDE the root, the request
`GET /../secret.txt` is routed to the generic static handler, whose
`join(root, url.slice(1))` resolves to the outside file with no escape
check, and the response is a 200 carrying that file's contents — not the
not-found demanded by the claim.  (The public-asset branch correctly falls
through on this path, but the extension handlers have no such check.) -/
theorem c1_traversal_escapes_root :
    handleRequest { root := str "/home/user/app" } fsOutsideRoot
        (str "/../secret.txt") 5
      = .ok { status := 200, contentType := str "text/plain",
              body := str "TOP-SECRET" } ∧
    staticFilePath (str "/home/user/app") (str "/../secret.txt")
      = str "/home/user/secret.txt" ∧
    isUnderRoot (str "/home/user/app") (str "/home/user/secret.txt") = false := by
  refine ⟨by rfl, by decide, by decide⟩

end MiniDev

/-! ### Theorems: error propagation at the router (claim C7) -/

namespace MiniDev

/-- C7 is refuted as stated: `servePublic` runs before the router's
`try/catch`, so a failing read of an existing `public/` file (e.g.
`EACCES`) leaves `handleRequest` as an uncaught error (an unhandled
rejection at the process level), not a 500 response. -/
theorem c7_counterexample :
    handleRequest { root := str "/r" } fsUnreadablePublic (str "/a.png") 3
      = .error (str "EACCES: permission denied") := by
  rfl

/-- C7 amended.  Errors thrown inside the extension-dispatch block (HTML,
TypeScript, CSS, static handlers) are caught at the router and converted to
a 500 response whose plain-text body is the error message; the only error
source the router's `try/catch` does not cover is the public-asset handler
that runs before it. -/
theorem c7_amended (cfg : Config) (fs : Fs) (url : Str) (now : Nat) :
    (∀ e, handleRequest cfg fs url now = .error e →
      servePublicM fs cfg.root (lookupPathOf url) = .error e) ∧
    (∀ e, lookupPathOf url ≠ str "/" →
      lookupPathOf url ≠ str "/@hmr-client" →
      ¬ (lookupPathOf url = str "/@env" ∧ cfg.envPfx ≠ none) →
      lookupPathOf url ≠ [] →
      tryProxy cfg.fetchF (normalizeProxy cfg.proxy) (lookupPathOf url)
          (searchOf url) = none →
      servePublicM fs cfg.root (lookupPathOf url) = .ok none →
      (if (str "/@node_modules/").isPrefixOf (lookupPathOf url)
       then cfg.nodeModuleH (lookupPathOf url) else none) = none →
      dispatchByExt cfg fs (lookupPathOf url) now = .error e →
      handleRequest cfg fs url now
        = .ok { status := 500, contentType := str "text/plain", body := e }) := by
  constructor
  · intro e he
    unfold handleRequest at he
    by_cases h1 : lookupPathOf url = str "/"
    · rw [if_pos h1] at he
      exact Except.noConfusion he
    rw [if_neg h1] at he
    by_cases h2 : lookupPathOf url = str "/@hmr-client"
    · rw [if_pos h2] at he
      exact Except.noConfusion he
    rw [if_neg h2] at he
    by_cases h3 : lookupPathOf url = str "/@env" ∧ cfg.envPfx ≠ none
    · rw [if_pos h3] at he
      exact Except.noConfusion he
    rw [if_neg h3] at he
    by_cases h4 : lookupPathOf url = []
    · rw [if_pos h4] at he
      exact Except.noConfusion he
    rw [if_neg h4] at he
    cases htp : tryProxy cfg.fetchF (normalizeProxy cfg.proxy) (lookupPathOf url)
        (searchOf url) with
    | some r =>
      rw [htp] at he
      exact Except.noConfusion he
    | none =>
      rw [htp] at he
      cases hsp : servePublicM fs cfg.root (lookupPathOf url) with
      | error e2 =>
        rw [hsp] at he
        injection he with hb
        rw [hb]
      | ok o =>
        rw [hsp] at he
        cases o with
        | some r => exact Except.noConfusion he
        | none =>
          cases hnm : (if (str "/@node_modules/").isPrefixOf (lookupPathOf url)
              then cfg.nodeModuleH (lookupPathOf url) else none) with
          | some r =>
            rw [hnm] at he
            exact Except.noConfusion he
          | none =>
            rw [hnm] at he
            cases hd : dispatchByExt cfg fs (lookupPathOf url) now with
            | ok r =>
              rw [hd] at he
              exact Except.noConfusion he
            | error e2 =>
              rw [hd] at he
              exact Except.noConfusion he
  · intro e h1 h2 h3 h4 h5 h6 h7 h8
    unfold handleRequest
    rw [if_neg h1, if_neg h2, if_neg h3, if_neg h4, h5, h6, h7, h8]

/-- Witness for C7 (amended): a failing CSS read inside the dispatch block
becomes a 500 with the error message as body. -/
theorem c7_amended_witness :
    handleRequest { root := str "/r" } fsReadFail (str "/style.css") 0
      = .ok { status := 500, contentType := str "text/plain",
              body := str "EIO: i/o error" } :=
  (c7_amended { root := str "/r" } fsReadFail (str "/style.css") 0).2
    (str "EIO: i/o error") (by decide) (by decide) (by decide) (by decide)
    (by rfl) (by rfl) (by rfl) (by rfl)

end MiniDev
